import Mathlib

/-!
Verification of the function-transformer composition framework in
`homework_1/deco.py` (decorators `disable`, `countcalls`, `memo`, `n_ary`,
`trace`, and the demo compositions `foo`, `bar`, `fib`).

Modelling conventions (shallow embedding):
* Python values passed to the arithmetic demos are modelled as `Int`;
  an argument tuple `*args` is a `List Int`.
* A decorated function with mutable attributes (a call counter, a memo
  cache, a trace depth) is modelled as an explicit state-passing function
  `args → state → result × state`.
* An exception propagating out of a call is modelled as an `Option`/`Except`
  result paired with the state at the moment of propagation.
* Python's `dict` used by `memo` is modelled as an association list with
  first-match lookup; insertion only happens for missing keys, matching
  `cache[args] = f(*args)` under `if args not in cache`.
-/

namespace Deco

/-- A memo cache mapping an argument tuple to a stored result
(`cache = {}` in `memo`). -/
abbrev Cache := List (List Int × Int)

/-- Dict lookup `args in cache` / `cache[args]`, first-match association
list semantics. -/
def cacheLookup : Cache → List Int → Option Int
  | [], _ => none
  | (k, v) :: rest, a => if k = a then some v else cacheLookup rest a

/-- `n_ary(f).wrapper`: `wrapper(x, *args) = x if not args else f(x, wrapper(*args))`.
The wrapper is called with at least one positional argument; a zero-argument
call raises (modelled as `none`).  Besides the result we count how many times
the wrapped binary `f` is invoked, so "no call to `f`" is expressible. -/
def n_aryCall (f : Int → Int → Int) : List Int → Option (Int × Nat)
  | [] => none
  | [x] => some (x, 0)
  | x :: y :: rest =>
      match n_aryCall f (y :: rest) with
      | some (v, k) => some (f x v, k + 1)
      | none => none

/-- `def foo(a, b): return a + b` (the base binary function of `foo`). -/
def addBase (a b : Int) : Int := a + b

/-- `def bar(a, b): return a * b` (the base binary function of `bar`). -/
def mulBase (a b : Int) : Int := a * b

/-- `n_ary(foo_base)` applied to an argument tuple, result only. -/
def n_ary_add (args : List Int) : Option Int :=
  (n_aryCall addBase args).map Prod.fst

/-- `n_ary(bar_base)` applied to an argument tuple, result only. -/
def n_ary_mul (args : List Int) : Option Int :=
  (n_aryCall mulBase args).map Prod.fst

/-- A Python value passed as an argument: an integer (hashable) or a list
(unhashable, so unusable as part of a `dict` key). -/
inductive PyVal where
  | vint : Int → PyVal
  | vlist : List PyVal → PyVal

/-- Whether a value can be hashed, i.e. serve inside a `dict` key.
Integers can, lists cannot. -/
def PyVal.hashable : PyVal → Bool
  | vint _ => true
  | vlist _ => false

mutual

/-- Python `==` on argument values (structural equality). -/
def PyVal.beq : PyVal → PyVal → Bool
  | .vint a, .vint b => a == b
  | .vlist xs, .vlist ys => PyVal.beqList xs ys
  | _, _ => false

/-- Python `==` on tuples/lists of argument values, elementwise. -/
def PyVal.beqList : List PyVal → List PyVal → Bool
  | [], [] => true
  | x :: xs, y :: ys => PyVal.beq x y && PyVal.beqList xs ys
  | _, _ => false

end

/-- A memo cache over general Python argument values. -/
abbrev CacheH := List (List PyVal × PyVal)

/-- Dict lookup over general Python argument values. -/
def cacheLookupH : CacheH → List PyVal → Option PyVal
  | [], _ => none
  | (k, v) :: rest, a => if PyVal.beqList k a then some v else cacheLookupH rest a

/-- One invocation of `memo(f)` over general Python argument values.
Evaluating `args not in cache` hashes the key tuple first, so if any
argument is unhashable a `TypeError: unhashable type` propagates before
`f` is consulted and before the cache is touched.  The result is the
returned value or the propagating error, the cache afterwards, and the
number of invocations of the inner `f`. -/
def memoStepH (f : List PyVal → PyVal) (c : CacheH) (args : List PyVal) :
    Except String PyVal × CacheH × Nat :=
  if args.all PyVal.hashable then
    match cacheLookupH c args with
    | some v => (Except.ok v, c, 0)
    | none => (Except.ok (f args), (args, f args) :: c, 1)
  else (Except.error "unhashable type", c, 0)

/-- A `__dict__` of instrumentation attributes on a function object. -/
abbrev AttrDict := List (String × Int)

/-- Attribute lookup on a `__dict__`. -/
def attrLookup : AttrDict → String → Option Int
  | [], _ => none
  | (k, v) :: rest, a => if k = a then some v else attrLookup rest a

/-- `wrapper.__dict__.update(f.__dict__)` as performed by
`update_wrapper(wrapper, f)`: entries of `new` take precedence over `old`. -/
def dictUpdate (old new : AttrDict) : AttrDict := new ++ old

/-- State of a `memo(f)` wrapper around a stateful inner function: the
cache, the wrapper's own `__dict__` (attributes copied from `f`), and the
inner function's state. -/
structure MemoAState (σ : Type) where
  cache : Cache
  wattrs : AttrDict
  inner : σ

/-- One invocation of `memo(f)` around a stateful inner function `fcall`
whose current `__dict__` is `fattrs` of its state.  Whether the call is a
hit or a miss, `update_wrapper(wrapper, f)` runs after the optional inner
call and immediately before returning, merging `f`'s current attribute
dictionary into the wrapper's. -/
def memoAttrCall {σ : Type} (fcall : List Int → σ → Int × σ) (fattrs : σ → AttrDict)
    (args : List Int) (st : MemoAState σ) : Int × MemoAState σ :=
  match cacheLookup st.cache args with
  | some v => (v, { st with wattrs := dictUpdate st.wattrs (fattrs st.inner) })
  | none =>
      let r := fcall args st.inner
      (r.1, { cache := (args, r.1) :: st.cache, inner := r.2,
              wattrs := dictUpdate st.wattrs (fattrs r.2) })

/-- Mutable state of the composition `foo = memo(countcalls(n_ary(foo_base)))`:
the memo wrapper's `cache`, the countcalls wrapper's `calls` attribute, and
the `calls` attribute visible on `foo` itself — `memo`'s wrapper starts with a
copy of the inner function's `__dict__` (via `@wraps(f)`, so `0`) and
re-copies it with `update_wrapper(wrapper, f)` on every completed call. -/
structure FooState where
  cache : Cache := []
  calls : Nat := 0
  fooCalls : Nat := 0
deriving DecidableEq, Repr

/-- One invocation of `foo = memo(countcalls(n_ary(foo_base)))`.
On a cache hit `memo` returns the stored value without calling the inner
countcalls wrapper (so `calls` is untouched), but still runs
`update_wrapper(wrapper, f)` which refreshes the copied `calls` attribute.
On a miss the countcalls wrapper increments `calls` first, then the
`n_ary` wrapper folds the arguments; the result is stored in the cache.
A `none` result models a propagating exception (zero-argument call). -/
def fooCall (args : List Int) (s : FooState) : Option Int × FooState :=
  match cacheLookup s.cache args with
  | some v => (some v, { s with fooCalls := s.calls })
  | none =>
      let calls' := s.calls + 1
      match n_ary_add args with
      | some v =>
          (some v, { cache := (args, v) :: s.cache, calls := calls', fooCalls := calls' })
      | none => (none, { s with calls := calls' })

/-- Mutable state of `bar = countcalls(memo(n_ary(bar_base)))`: the outer
countcalls wrapper's `calls` attribute and the memo wrapper's `cache`. -/
structure BarState where
  calls : Nat := 0
  cache : Cache := []
deriving DecidableEq, Repr

/-- One invocation of `bar = countcalls(memo(n_ary(bar_base)))`.
Every call first increments the outer `calls`, then `memo` either serves
the cached value or calls down into the `n_ary` fold and stores the result. -/
def barCall (args : List Int) (s : BarState) : Option Int × BarState :=
  let calls' := s.calls + 1
  match cacheLookup s.cache args with
  | some v => (some v, { s with calls := calls' })
  | none =>
      match n_ary_mul args with
      | some v => (some v, { calls := calls', cache := (args, v) :: s.cache })
      | none => (none, { s with calls := calls' })

/-- Python string repetition `s * n`. -/
def strTimes (s : String) : Nat → String
  | 0 => ""
  | n + 1 => s ++ strTimes s n

/-- State of a `trace(decor_arg)`-wrapped function: the wrapper's `level`
attribute, the lines printed so far, and the inner function's state. -/
structure TraceState (σ : Type) where
  level : Nat
  out : List String
  inner : σ

/-- One invocation of `trace(decor_arg)(f)`'s wrapper, around a stateful
inner function that may fail (`none` models a propagating exception).
The wrapper computes the indentation prefix from the current `level`,
prints the entry line, increments `level`, and calls `inner`.  If `inner`
returns, the exit line is printed and `level` is decremented; if `inner`
raises, the exception propagates out of the wrapper body immediately —
there is no `try/finally`, so neither the exit print nor the decrement of
`level` happens. -/
def traceCall {σ : Type} (decorArg fname : String)
    (innerF : List Int → σ → Option Int × σ) (args : List Int)
    (st : TraceState σ) : Option Int × TraceState σ :=
  let pfx := strTimes decorArg st.level
  let argStr := String.intercalate ", " (args.map toString)
  let enterLine := pfx ++ " --> " ++ fname ++ "(" ++ argStr ++ ")"
  let st1 : TraceState σ :=
    { st with out := st.out ++ [enterLine], level := st.level + 1 }
  match innerF args st1.inner with
  | (none, si) => (none, { st1 with inner := si })
  | (some r, si) =>
      let exitLine := pfx ++ " <-- " ++ fname ++ "(" ++ argStr ++ ") == " ++ toString r
      (some r, { level := st1.level - 1, out := st1.out ++ [exitLine], inner := si })

/-- Identity: name and docstring of a function, as copied by
`functools.wraps` / `update_wrapper` (`MetadataCarrier`). -/
structure Meta where
  name : String
  doc : Option String
deriving DecidableEq

/-- The identity metadata a bare `def wrapper(*args, **kwargs)` carries when
nothing is copied onto it: the generic name `wrapper` and no docstring. -/
def wrapperDefaultMeta : Meta := { name := "wrapper", doc := none }

/-- Effect of `countcalls` on identity metadata: its `wrapper` is defined
without `@wraps(func)`, so the decorated function carries the generic
wrapper metadata, whatever the wrapped function's identity was. -/
def countcallsMeta (_m : Meta) : Meta := wrapperDefaultMeta

/-- Effect of `memo` on identity metadata: its wrapper is `@wraps(f)`, so
the wrapped function's identity is preserved. -/
def memoMeta (m : Meta) : Meta := m

/-- Effect of `n_ary` on identity metadata: its wrapper is `@wraps(f)`. -/
def n_aryMeta (m : Meta) : Meta := m

/-- Effect of `trace(decor_arg)`'s inner transformer on identity metadata:
its wrapper is `@wraps(f)`. -/
def traceMeta (m : Meta) : Meta := m

/-- A Python object as seen by `disable`: all that matters is whether
`callable(f)` holds; `oid` distinguishes distinct objects. -/
structure PyObject where
  callable : Bool
  oid : Nat
deriving DecidableEq

/-- `disable(f) = f if callable(f) else lambda f: f`. -/
def disable (x : PyObject) : PyObject ⊕ (PyObject → PyObject) :=
  if x.callable then Sum.inl x else Sum.inr (fun f => f)

/-- Mutable state of `fib = countcalls(trace("____")(memo(fib_base)))`:
the outer counter's `calls`, the trace wrapper's `level`, the memo
wrapper's cache (keyed by the single argument `n`) and the printed lines. -/
structure FibState where
  calls : Nat := 0
  level : Nat := 0
  cache : List (Int × Int) := []
  out : List String := []

/-- Memo cache lookup for `fib` (single-integer keys). -/
def fibLookup : List (Int × Int) → Int → Option Int
  | [], _ => none
  | (k, v) :: rest, a => if k = a then some v else fibLookup rest a

/-- One invocation of `fib = countcalls(trace("____")(memo(fib_base)))`
where `fib_base(n) = 1 if n <= 1 else fib(n-1) + fib(n-2)` and the
recursive name `fib` resolves to the fully wrapped composition, so every
recursive descent re-enters counter, tracer and cache.  The first `Nat`
argument is recursion fuel (strictly larger than the call depth actually
used; exhaustion yields `none`, which never happens for the inputs
considered).  Order of effects per call: the counter increments `calls`;
the tracer prints the entry line and increments `level`; the memo wrapper
either serves the cache or calls `fib_base` and stores the result; the
tracer then prints the exit line and decrements `level`. -/
def fibCall : Nat → Int → FibState → Option Int × FibState
  | 0, _, s => (none, s)
  | fuel + 1, n, s₀ =>
      let s1 : FibState := { s₀ with calls := s₀.calls + 1 }
      let pfx := strTimes "____" s1.level
      let enterLine := pfx ++ " --> fib(" ++ toString n ++ ")"
      let s2 : FibState := { s1 with out := s1.out ++ [enterLine], level := s1.level + 1 }
      match fibLookup s2.cache n with
      | some v =>
          let exitLine := pfx ++ " <-- fib(" ++ toString n ++ ") == " ++ toString v
          (some v, { s2 with out := s2.out ++ [exitLine], level := s2.level - 1 })
      | none =>
          let base : Option Int × FibState :=
            if n ≤ 1 then (some 1, s2)
            else
              match fibCall fuel (n - 1) s2 with
              | (none, t) => (none, t)
              | (some a, t) =>
                  match fibCall fuel (n - 2) t with
                  | (none, u) => (none, u)
                  | (some b, u) => (some (a + b), u)
          match base with
          | (none, t) => (none, t)
          | (some v, t) =>
              let exitLine := pfx ++ " <-- fib(" ++ toString n ++ ") == " ++ toString v
              (some v, { t with cache := (n, v) :: t.cache,
                                out := t.out ++ [exitLine], level := t.level - 1 })

/-- The demo call sequence `foo(4,3); foo(4,3,2); foo(4,3)` from `main`,
returning the three results and the final state. -/
def fooDemo : (Option Int × Option Int × Option Int) × FooState :=
  let r1 := fooCall [4, 3] {}
  let r2 := fooCall [4, 3, 2] r1.2
  let r3 := fooCall [4, 3] r2.2
  ((r1.1, r2.1, r3.1), r3.2)

/-- The demo call sequence `bar(4,3); bar(4,3,2); bar(4,3,2,1)` from `main`,
returning the three results and the final state. -/
def barDemo : (Option Int × Option Int × Option Int) × BarState :=
  let r1 := barCall [4, 3] {}
  let r2 := barCall [4, 3, 2] r1.2
  let r3 := barCall [4, 3, 2, 1] r2.2
  ((r1.1, r2.1, r3.1), r3.2)

/-- One invocation of a generic `memo(f)` wrapper for a pure inner function
`f`: on `args not in cache` the inner function is called and the result
stored, otherwise the stored value is returned.  The third component is the
log of argument tuples on which the inner `f` was actually invoked during
this call (empty on a hit, `[args]` on a miss). -/
def memoStep (f : List Int → Int) (c : Cache) (args : List Int) :
    Int × Cache × List (List Int) :=
  match cacheLookup c args with
  | some v => (v, c, [])
  | none => (f args, (args, f args) :: c, [args])

/-- A sequence of invocations of `memo(f)`, threading the cache and
concatenating the logs of inner invocations. -/
def memoRun (f : List Int → Int) (c : Cache) : List (List Int) → Cache × List (List Int)
  | [] => (c, [])
  | a :: rest =>
      let s := memoStep f c a
      let r := memoRun f s.2.1 rest
      (r.1, s.2.2 ++ r.2)

/-- Number of occurrences of the tuple `t` in a log of invocations. -/
def countOcc : List (List Int) → List Int → Nat
  | [], _ => 0
  | a :: rest, t => (if a = t then 1 else 0) + countOcc rest t

end Deco

namespace Deco

lemma countOcc_append (l₁ l₂ : List (List Int)) (t : List Int) :
    countOcc (l₁ ++ l₂) t = countOcc l₁ t + countOcc l₂ t := by
  induction l₁ with
  | nil => simp [countOcc]
  | cons a rest ih => simp [countOcc, ih]; omega

/-- Over any call sequence, `memo(f)` invokes `f` on the tuple `t` exactly
once if `t` occurs in the sequence and is not already cached, and never
otherwise. -/
lemma memoRun_countOcc (f : List Int → Int) (inputs : List (List Int)) :
    ∀ (c : Cache) (t : List Int),
      countOcc (memoRun f c inputs).2 t
        = if t ∈ inputs ∧ cacheLookup c t = none then 1 else 0 := by
  induction inputs with
  | nil => intro c t; simp [memoRun, countOcc]
  | cons a rest ih =>
      intro c t
      by_cases ht : t = a
      · subst ht
        cases h : cacheLookup c t with
        | some v =>
            simp [memoRun, memoStep, h, countOcc_append, countOcc, ih]
        | none =>
            simp [memoRun, memoStep, h, countOcc_append, countOcc, ih, cacheLookup]
      · cases h : cacheLookup c a with
        | some v =>
            simp [memoRun, memoStep, h, countOcc_append, countOcc, ih, ht, List.mem_cons]
        | none =>
            have hlk : cacheLookup ((a, f a) :: c) t = cacheLookup c t := by
              simp [cacheLookup, ht]
              intro hc; exact absurd hc.symm ht
            simp [memoRun, memoStep, h, countOcc_append, countOcc, ih, ht, hlk,
              List.mem_cons]
            tauto

/-- C7: `memo(f)` serves a cached tuple without calling `f`, computes and
stores a missing tuple by calling `f` once, and over any call sequence
starting from the fresh empty cache invokes `f` at most once per distinct
tuple — exactly once for each tuple that occurs in the sequence. -/
theorem memo_cache_correct (f : List Int → Int) (c : Cache) (args : List Int) (v : Int) :
    (cacheLookup c args = some v → memoStep f c args = (v, c, [])) ∧
    (cacheLookup c args = none →
      memoStep f c args = (f args, (args, f args) :: c, [args])) ∧
    ∀ (inputs : List (List Int)) (t : List Int),
      countOcc (memoRun f [] inputs).2 t ≤ 1 ∧
      (t ∈ inputs → countOcc (memoRun f [] inputs).2 t = 1) := by
  refine ⟨fun h => by simp [memoStep, h], fun h => by simp [memoStep, h], ?_⟩
  intro inputs t
  have hc : countOcc (memoRun f [] inputs).2 t
      = if t ∈ inputs ∧ cacheLookup [] t = none then 1 else 0 :=
    memoRun_countOcc f inputs [] t
  rw [hc]
  constructor
  · split <;> omega
  · intro hmem
    simp [cacheLookup, hmem]

/-- Witness for `memo_cache_correct`: a cache hit at `(1,)` returns the
stored `5` with no inner invocation, and calling twice with `(2,)` from an
empty cache invokes the inner function exactly once on `(2,)`. -/
theorem memo_cache_correct_witness :
    memoStep (fun _ => 0) [([1], 5)] [1] = (5, [([1], 5)], []) ∧
    countOcc (memoRun (fun _ => 0) [] [[2], [2]]).2 [2] = 1 :=
  ⟨(memo_cache_correct (fun _ => 0) [([1], 5)] [1] 5).1 (by decide),
   ((memo_cache_correct (fun _ => 0) [([1], 5)] [1] 5).2.2 [[2], [2]] [2]).2
     (by decide)⟩

/-- C2: `foo = memo(countcalls(n_ary(add)))` returns 7, 9, 7 on the call
sequence `(4,3), (4,3,2), (4,3)`; the third call is a cache hit that never
reaches the counter (the counter still reads 2 and the cache is unchanged
by the third call), and the call count observable on `foo` afterwards is 2. -/
theorem foo_demo_results_and_count :
    fooDemo.1 = (some 7, some 9, some 7) ∧
    fooDemo.2.calls = 2 ∧
    fooDemo.2.fooCalls = 2 ∧
    (fooCall [4, 3] (fooCall [4, 3, 2] (fooCall [4, 3] {}).2).2).2.cache
      = (fooCall [4, 3, 2] (fooCall [4, 3] {}).2).2.cache ∧
    (fooCall [4, 3] (fooCall [4, 3, 2] (fooCall [4, 3] {}).2).2).2.calls
      = (fooCall [4, 3, 2] (fooCall [4, 3] {}).2).2.calls := by
  decide

/-- C3: `bar = countcalls(memo(n_ary(mul)))` returns 12, 24, 24 on the call
sequence `(4,3), (4,3,2), (4,3,2,1)`, and the outer counter reads 3
afterwards: every call passes through the outer counter. -/
theorem bar_demo_results_and_count :
    barDemo.1 = (some 12, some 24, some 24) ∧ barDemo.2.calls = 3 := by
  decide

/-- C8: calling `memo(f)` with an unhashable argument value fails with the
unhashable-key error before `f` is invoked (zero inner invocations) and
leaves the cache unchanged. -/
theorem memo_unhashable_arg (f : List PyVal → PyVal) (c : CacheH) (args : List PyVal)
    (a : PyVal) (ha : a ∈ args) (hh : a.hashable = false) :
    memoStepH f c args = (Except.error "unhashable type", c, 0) := by
  have : args.all PyVal.hashable = false := by
    rw [List.all_eq_false]
    exact ⟨a, ha, by simp [hh]⟩
  simp [memoStepH, this]

/-- Witness for `memo_unhashable_arg`: calling with the single argument `[]`
(an empty Python list, unhashable) on an empty cache errors out with the
cache still empty and the inner function never invoked. -/
theorem memo_unhashable_arg_witness :
    memoStepH (fun _ => PyVal.vint 0) [] [PyVal.vlist []]
      = (Except.error "unhashable type", [], 0) :=
  memo_unhashable_arg (fun _ => PyVal.vint 0) [] [PyVal.vlist []]
    (PyVal.vlist []) (by simp) (by simp [PyVal.hashable])

lemma attrLookup_append_left (xs ys : AttrDict) (k : String) (v : Int)
    (h : attrLookup xs k = some v) : attrLookup (xs ++ ys) k = some v := by
  induction xs with
  | nil => simp [attrLookup] at h
  | cons p rest ih =>
      cases p with
      | mk pk pv =>
          by_cases hk : pk = k
          · simp [attrLookup, hk] at h ⊢; exact h
          · simp [attrLookup, hk] at h ⊢; exact ih h

/-- C10: after any call to `memo(f)` — cache hit or miss — the wrapper's
attribute dictionary has been refreshed from `f`'s current one by
`update_wrapper`, so any attribute currently on `f` (such as an inner call
counter) is readable on the wrapper with `f`'s current value. -/
theorem memo_attr_refresh {σ : Type} (fcall : List Int → σ → Int × σ)
    (fattrs : σ → AttrDict) (args : List Int) (st : MemoAState σ)
    (k : String) (v : Int)
    (h : attrLookup (fattrs (memoAttrCall fcall fattrs args st).2.inner) k = some v) :
    attrLookup (memoAttrCall fcall fattrs args st).2.wattrs k = some v := by
  cases hc : cacheLookup st.cache args with
  | some w =>
      simp [memoAttrCall, hc, dictUpdate] at h ⊢
      exact attrLookup_append_left _ _ _ _ h
  | none =>
      simp [memoAttrCall, hc, dictUpdate] at h ⊢
      exact attrLookup_append_left _ _ _ _ h

/-- Witness for `memo_attr_refresh`: the inner function is a call counter
whose state is its count and whose `__dict__` is `{"calls": count}`; after
one (miss) call through the memo wrapper, reading `"calls"` on the wrapper
yields the counter's current value 1. -/
theorem memo_attr_refresh_witness :
    attrLookup (memoAttrCall (fun _ n => (0, n + 1))
      (fun n => [("calls", Int.ofNat n)]) [1]
      (MemoAState.mk [] [] 0)).2.wattrs "calls" = some 1 :=
  memo_attr_refresh (fun _ n => (0, n + 1)) (fun n => [("calls", Int.ofNat n)])
    [1] (MemoAState.mk [] [] 0) "calls" 1 (by simp [memoAttrCall, cacheLookup, attrLookup])

/-- C1: invoking the fully wrapped `fib` at `n = 3` returns 3 and leaves
the outer counter at exactly 5: the descents `fib(3)`, `fib(2)`, `fib(1)`,
`fib(0)` and the second `fib(1)` (a cache hit that still passes through the
outer counter) are each observed. -/
theorem fib_three_call_count :
    (fibCall 10 3 {}).1 = some 3 ∧ (fibCall 10 3 {}).2.calls = 5 := by
  decide

/-- C4 counterexample: an inner function that raises.  The failure does
propagate, but the trace wrapper's `level` is left at 1, not restored to
its pre-call value 0 — the wrapper body has no `try/finally`, so the
decrement on the exit path is skipped when `inner` raises. -/
theorem trace_depth_not_restored_on_failure :
    (traceCall "____" "f" (fun _ (u : Unit) => (none, u)) [1]
      (TraceState.mk 0 [] ())).1 = none ∧
    (traceCall "____" "f" (fun _ (u : Unit) => (none, u)) [1]
      (TraceState.mk 0 [] ())).2.level = 1 ∧ (1 : Nat) ≠ 0 := by
  refine ⟨rfl, rfl, by decide⟩

/-- C4 amended: when `inner` raises inside a `trace`-wrapped call, the
failure propagates to the caller, but `DepthState` is NOT decremented back:
it remains at its pre-call value plus one, because the wrapper has no
guaranteed-cleanup construct on the exit path. -/
theorem trace_failure_leaves_depth_incremented {σ : Type} (decorArg fname : String)
    (innerF : List Int → σ → Option Int × σ) (args : List Int)
    (st : TraceState σ) (h : (innerF args st.inner).1 = none) :
    (traceCall decorArg fname innerF args st).1 = none ∧
    (traceCall decorArg fname innerF args st).2.level = st.level + 1 := by
  cases hi : innerF args st.inner with
  | mk r si =>
      rw [hi] at h
      subst h
      constructor <;> simp [traceCall, hi]

/-- Witness for `trace_failure_leaves_depth_incremented` at a concrete
always-raising inner function and depth 0: the failure propagates and the
depth afterwards is 1. -/
theorem trace_failure_leaves_depth_incremented_witness :
    (traceCall "____" "g" (fun _ (u : Unit) => (none, u)) [2]
      (TraceState.mk 0 [] ())).1 = none ∧
    (traceCall "____" "g" (fun _ (u : Unit) => (none, u)) [2]
      (TraceState.mk 0 [] ())).2.level = 0 + 1 :=
  trace_failure_leaves_depth_incremented "____" "g" (fun _ u => (none, u)) [2]
    (TraceState.mk 0 [] ()) rfl

/-- C5 counterexample: `countcalls` defines its wrapper without `@wraps`,
so a `countcalls`-wrapped function carries the generic wrapper identity,
not the wrapped function's name and docstring. -/
theorem countcalls_meta_not_preserved :
    countcallsMeta (Meta.mk "fib" (some "Some doc")) ≠ Meta.mk "fib" (some "Some doc") := by
  decide

/-- C5 amended: `memo`, `n_ary` and `trace`'s inner transformer preserve the
wrapped function's name and description (their wrappers are `@wraps(f)`),
but `countcalls` does not: its wrapper carries the generic metadata
`{name := "wrapper", doc := none}` regardless of the wrapped function.
`disable`'s passthrough returns the very argument, so nothing changes. -/
theorem meta_preservation_amended (m : Meta) :
    memoMeta m = m ∧ n_aryMeta m = m ∧ traceMeta m = m ∧
    countcallsMeta m = Meta.mk "wrapper" none :=
  ⟨rfl, rfl, rfl, rfl⟩

/-- C9: `disable` returns a callable argument unchanged, and for a
non-callable argument returns the passthrough transformer `f -> f`, whose
application to any invocable is that identical invocable. -/
theorem disable_spec (x : PyObject) :
    (x.callable = true → disable x = Sum.inl x) ∧
    (x.callable = false →
      disable x = Sum.inr (fun f => f) ∧
      ∀ (g : PyObject) (t : PyObject → PyObject), disable x = Sum.inr t → t g = g) := by
  constructor
  · intro h; simp [disable, h]
  · intro h
    refine ⟨by simp [disable, h], ?_⟩
    intro g t hteq
    simp [disable, h] at hteq
    rw [← hteq]

/-- Witness for `disable_spec`: a callable object comes back unchanged, and
applying what `disable` returns for a non-callable object to a callable
object gives back that same callable object. -/
theorem disable_spec_witness :
    disable (PyObject.mk true 0) = Sum.inl (PyObject.mk true 0) ∧
    disable (PyObject.mk false 1) = Sum.inr (fun f => f) :=
  ⟨(disable_spec (PyObject.mk true 0)).1 rfl,
   ((disable_spec (PyObject.mk false 1)).2 rfl).1⟩

/-- C6: the `n_ary` adapter satisfies `adapted(x) = x` with no call to `f`,
`adapted(x, y) = f(x, y)`, and for three or more arguments
`adapted(x, y, z, ...) = f(x, adapted(y, z, ...))`, the recursion being the
adapter's own self-recursion (`n_aryCall` recurses on itself). -/
theorem n_ary_fold_spec (f : Int → Int → Int) (x y z : Int) (rest : List Int) :
    n_aryCall f [x] = some (x, 0) ∧
    n_aryCall f [x, y] = some (f x y, 1) ∧
    n_aryCall f (x :: y :: z :: rest)
      = (n_aryCall f (y :: z :: rest)).map (fun p => (f x p.1, p.2 + 1)) := by
  refine ⟨rfl, rfl, ?_⟩
  have e : n_aryCall f (x :: y :: z :: rest)
      = match n_aryCall f (y :: z :: rest) with
        | some (v, k) => some (f x v, k + 1)
        | none => none := rfl
  cases h : n_aryCall f (y :: z :: rest) with
  | none => rw [e, h]; rfl
  | some p => rw [e, h]; rfl

end Deco
